import Mathlib

/-!
# blobkv: the key/value adapter over an object-storage bucket

A shallow embedding of `gcs/gcs.go`, `model/model.go`, `config/config.go` and
`blobkv.go`.

* Go strings are Lean strings; the string functions the adapter calls
  (`path.Join`, `strings.TrimPrefix`, `strings.Trim`) work on the character
  list of the string.
* A Go `error` result is an `Option GoError` (`none` is `nil`).
* The object-storage client (`stiface`) is a collaborator behind an interface:
  it is a record of primitives, each a transition on a backend state `σ`, and
  every adapter method threads that state in the order of the Go statements.
* A method that can end in a panic has an `Outcome`: the `error` it returned, or
  the panic.
* `encoding/json` is a collaborator too: `JSONCodec`.
-/

set_option linter.dupNamespace false

namespace BlobKV

/-! ## Go values -/

/-- Byte slices (`[]byte`). -/
abbrev Bytes := List UInt8

/-- Go error values: an error carrying only a message (`errors.New`, the errors of
the storage client) or an `*echo.HTTPError` made by `echo.NewHTTPError`. -/
inductive GoError where
  | text (msg : String)
  | http (code : Nat) (message : String)
  deriving DecidableEq, Repr

/-- The method `Error()`: the message of a plain error; for an `*echo.HTTPError`
the format `code=%d, message=%v`. -/
def GoError.Error : GoError → String
  | .text msg => msg
  | .http code message => "code=" ++ toString code ++ ", message=" ++ message

/-- How a call of `add`, `Add`, `ForceAdd` or `Update` ends: it returns its `error`
result, or it panics. -/
inductive Outcome where
  | returned (err : Option GoError)
  | panicked
  deriving DecidableEq, Repr

/-- The constant `http.StatusNotFound`. -/
def StatusNotFound : Nat := 404

/-- The variable `ObjectDoesNotExistsError` of `gcs.go`. -/
def ObjectDoesNotExistsError : GoError :=
  .http StatusNotFound "Object Does Not Exists"

/-- The error `storage.ErrObjectNotExist` of the storage client; its message is the
one `Exists` compares with. -/
def ErrObjectNotExist : GoError := .text "storage: object doesn't exist"

/-! ## Package `path` and package `strings` -/

namespace path

/-- The element loop of `path.Clean`. `out` is the stack of elements written so far,
last one first. Empty and `.` elements are dropped; a `..` removes the element
written last, unless there is none to remove (nothing written, or only leading
`..`), in which case it is kept on an unrooted path and dropped on a rooted one. -/
def cleanElems (rooted : Bool) : List (List Char) → List (List Char) → List (List Char)
  | out, [] => out.reverse
  | out, e :: es =>
    if e = [] ∨ e = ['.'] then cleanElems rooted out es
    else if e = ['.', '.'] then
      match out with
      | top :: rest =>
        if top ≠ ['.', '.'] then cleanElems rooted rest es
        else if !rooted then cleanElems rooted (e :: out) es
        else cleanElems rooted out es
      | [] =>
        if !rooted then cleanElems rooted [e] es
        else cleanElems rooted [] es
    else cleanElems rooted (e :: out) es

/-- Go `path.Clean`: the shortest path equivalent to `p`. -/
def Clean (p : String) : String :=
  if p = "" then "."
  else
    let rooted := p.data.head? = some '/'
    let out := cleanElems rooted [] (p.data.splitOn '/')
    let body := ['/'].intercalate out
    if rooted then ⟨'/' :: body⟩
    else if body = [] then "."
    else ⟨body⟩

/-- Go `strings.Join(elem, "/")`. -/
def joinSlash (elem : List String) : String :=
  ⟨['/'].intercalate (elem.map String.data)⟩

/-- Go `path.Join`: the elements from the first non-empty one on are joined with
slashes and the result is cleaned; with no non-empty element the result is `""`. -/
def Join : List String → String
  | [] => ""
  | e :: es => if e ≠ "" then Clean (joinSlash (e :: es)) else Join es

end path

namespace strings

/-- Go `strings.TrimPrefix`. -/
def TrimPrefix (s pre : String) : String :=
  if pre.data.isPrefixOf s.data then ⟨s.data.drop pre.data.length⟩ else s

/-- Go `strings.Trim`: `s` without the leading and trailing characters that occur in
`cutset`. -/
def Trim (s cutset : String) : String :=
  ⟨(s.data.dropWhile (fun c => c ∈ cutset.data)).rdropWhile (fun c => c ∈ cutset.data)⟩

end strings

/-- A path all of whose elements between slashes are names: none is empty, `.` or
`..`. Such a path is not empty and has no leading, trailing or doubled slash. -/
def plainPath (s : String) : Bool :=
  (s.data.splitOn '/').all (fun e => e ≠ [] ∧ e ≠ ['.'] ∧ e ≠ ['.', '.'])

/-! ## `model` and `config` -/

/-- The type `model.Metadata`, a `map[string]string`: `none` is the nil map. -/
abbrev Metadata := Option (List (String × String))

/-- The struct `model.Key`. -/
structure Key where
  Key : String
  Metadata : Metadata
  deriving DecidableEq, Repr

/-- The type `model.Keys`. -/
abbrev Keys := List Key

/-- The type `model.Backend`. -/
abbrev Backend := String

/-- The constant `model.GCS`. -/
def GCS : Backend := "gcs"

/-- The struct `config.Storage`. -/
structure Storage where
  Creds : String
  Bucket : String
  Prefix : String
  deriving DecidableEq, Repr

/-! ## The collaborators -/

/-- The fields of `storage.ObjectAttrs` that the adapter and the bucket model use. -/
structure ObjectAttrs where
  Name : String
  Prefix : String
  Metadata : Metadata
  ContentType : String
  CacheControl : String
  deriving DecidableEq, Repr

/-- The struct `storage.Query`. -/
structure Query where
  Prefix : String
  Delimiter : String
  deriving DecidableEq, Repr

/-- A `stiface.Writer` as `add` has set it up through `w.ObjectAttrs()`: the object
it was opened on, the content type and the cache directive. -/
structure Writer where
  Object : String
  ContentType : String
  CacheControl : String
  deriving DecidableEq, Repr

/-- The primitives of `stiface.BucketHandle`, `stiface.ObjectHandle`,
`stiface.Writer`, `stiface.Reader` and `stiface.ObjectIterator` that the adapter
calls, as transitions on a backend state `σ`. `Attrs` keeps only the error, the one
part of its result the adapter reads. `AttrsMetadata` is the statement
`w.Attrs().Metadata = m` on the writer opened on an object: its flag is `false` when
`w.Attrs()` is the nil pointer, so that the assignment panics. `NewReader` gives the
bytes the reader delivers; the deferred `r.Close()` of `Get` has no result the
adapter reads. `Objects` gives the results of the successive `Next` calls up to
`iterator.Done`. -/
structure BucketHandle (σ : Type) where
  Attrs : String → σ → Option GoError × σ
  NewWriter : String → σ → σ
  AttrsMetadata : String → Metadata → σ → Bool × σ
  Write : Writer → Bytes → σ → Option GoError × σ
  Close : Writer → σ → Option GoError × σ
  NewReader : String → σ → Except GoError Bytes × σ
  Delete : String → σ → Option GoError × σ
  Objects : Query → σ → List (Except GoError ObjectAttrs) × σ

/-- The two functions of `encoding/json` the adapter calls: `json.Marshal` and
`json.NewDecoder(r).Decode(&payload)` on a nil `payload`, which gives the decoded
value together with the error. -/
structure JSONCodec (Payload : Type) where
  Marshal : Payload → Except GoError Bytes
  Decode : Bytes → Payload × Option GoError

/-! ## `gcs.I` -/

/-- The struct `gcs.I` (its `Client` is used by no method). -/
structure I (σ : Type) where
  Config : Storage
  Bucket : BucketHandle σ

section Adapter

variable {σ Payload : Type} [Inhabited Payload]

/-- Method `I.getObject`: the name of the object handle for `key`. -/
def I.getObject (i : I σ) (key : String) : String :=
  path.Join [i.Config.Prefix, key]

/-- Method `I.Exists`. -/
def I.Exists (i : I σ) (key : String) (s : σ) : Option GoError × σ :=
  match i.Bucket.Attrs (i.getObject key) s with
  | (some err, s1) =>
    if err.Error = "storage: object doesn't exist" then
      (some ObjectDoesNotExistsError, s1)
    else (some err, s1)
  | (none, s1) => (none, s1)

/-- The writer of `I.add` once `w.ObjectAttrs()` is set: opened on the object of `key`,
with the content type and the cache directive. -/
def I.newWriter (i : I σ) (key : String) : Writer :=
  { Object := i.getObject key
    ContentType := "application/json"
    CacheControl := "no-cache,max-age=0" }

/-- The statement `if metadata != nil { w.Attrs().Metadata = *metadata }` of `I.add`:
the flag tells whether control goes on; it is `false` when the assignment panics. -/
def I.setMetadata (i : I σ) (key : String) (metadata : Option Metadata) (s : σ) : Bool × σ :=
  match metadata with
  | some m => i.Bucket.AttrsMetadata (i.getObject key) m s
  | none => (true, s)

/-- The part of `I.add` below the existence check: the writer is opened, the metadata
is assigned when there is one, the payload is serialized and written. A panic of
the assignment ends the call before `defer w.Close()` is reached; from there on
`Close` runs on every return and its result is dropped. -/
def I.addWrite (json : JSONCodec Payload) (i : I σ) (key : String) (payload : Payload)
    (metadata : Option Metadata) (s : σ) : Outcome × σ :=
  let s1 := i.Bucket.NewWriter (i.getObject key) s
  match i.setMetadata key metadata s1 with
  | (false, s2) => (.panicked, s2)
  | (true, s2) =>
    let w := i.newWriter key
    match json.Marshal payload with
    | .error err => (.returned (some err), (i.Bucket.Close w s2).2)
    | .ok b =>
      match i.Bucket.Write w b s2 with
      | (some err, s3) => (.returned (some err), (i.Bucket.Close w s3).2)
      | (none, s3) => (.returned none, (i.Bucket.Close w s3).2)

/-- Method `I.add`. -/
def I.add (json : JSONCodec Payload) (i : I σ) (key : String) (payload : Payload)
    (metadata : Option Metadata) (force : Bool) (s : σ) : Outcome × σ :=
  if !force then
    match i.Exists key s with
    | (none, s1) => (.returned none, s1)
    | (some _, s1) => i.addWrite json key payload metadata s1
  else i.addWrite json key payload metadata s

/-- Method `I.Add`. -/
def I.Add (json : JSONCodec Payload) (i : I σ) (key : String) (payload : Payload)
    (metadata : Option Metadata) (s : σ) : Outcome × σ :=
  i.add json key payload metadata false s

/-- Method `I.ForceAdd`. -/
def I.ForceAdd (json : JSONCodec Payload) (i : I σ) (key : String) (payload : Payload)
    (metadata : Option Metadata) (s : σ) : Outcome × σ :=
  i.add json key payload metadata true s

/-- The body of the loop of `I.List` for one entry: the key made from `attrs`. -/
def I.listKey (i : I σ) (key : String) (attrs : ObjectAttrs) : Key :=
  let pre := attrs.Prefix
  let pre := strings.TrimPrefix pre i.Config.Prefix
  let pre := strings.TrimPrefix pre ("/" ++ key)
  let pre := strings.Trim pre "/"
  { Key := pre, Metadata := attrs.Metadata }

/-- The loop of `I.List` over the results of `it.Next()`: it ends at `iterator.Done`
(the end of the list) or at the first error, which is returned with the keys
collected so far. -/
def I.listLoop (i : I σ) (key : String) :
    List (Except GoError ObjectAttrs) → Keys → Keys × Option GoError
  | [], keys => (keys, none)
  | .error err1 :: _, keys => (keys, some err1)
  | .ok attrs :: rest, keys => I.listLoop i key rest (keys ++ [i.listKey key attrs])

/-- Method `I.List`. -/
def I.List (i : I σ) (key : String) (s : σ) : (Keys × Option GoError) × σ :=
  match i.Bucket.Objects
      { Prefix := path.Join [i.Config.Prefix, key] ++ "/", Delimiter := "/" } s with
  | (it, s1) => (i.listLoop key it [], s1)

/-- Method `I.Get`. The zero value of `Payload` (the nil map) is `default`. -/
def I.Get (json : JSONCodec Payload) (i : I σ) (key : String) (s : σ) :
    (Payload × Option GoError) × σ :=
  match i.Exists key s with
  | (some err, s1) => ((default, some err), s1)
  | (none, s1) =>
    match i.Bucket.NewReader (i.getObject key) s1 with
    | (.error err, s2) => ((default, some err), s2)
    | (.ok r, s2) => (json.Decode r, s2)

/-- Method `I.Update`. -/
def I.Update (json : JSONCodec Payload) (i : I σ) (key : String) (payload : Payload)
    (metadata : Option Metadata) (s : σ) : Outcome × σ :=
  match i.Exists key s with
  | (some err, s1) => (.returned (some err), s1)
  | (none, s1) => i.add json key payload metadata true s1

/-- Method `I.Delete`. -/
def I.Delete (i : I σ) (key : String) (s : σ) : Option GoError × σ :=
  match i.Exists key s with
  | (some err, s1) => (some err, s1)
  | (none, s1) => i.Bucket.Delete (i.getObject key) s1

end Adapter

/-! ## `blobkv.GetStoreInterface` -/

/-- A value of the interface type `model.I`: the nil interface, or a `gcs.I`, which
is either the zero struct (`none`) or a client with its bucket handle. -/
inductive StoreI (σ : Type) where
  | nil
  | gcs (i : Option (I σ))

section Factory

variable {σ ω : Type}

/-- Function `gcs.NewClient`. The call `storage.NewClient` with the credentials file
is the collaborator `newStorageClient`, a transition on the state `ω` of the
outside world; the client it gives maps a bucket name to its handle. On an error
the zero `gcs.I` is returned with it. -/
def NewClient (newStorageClient : String → ω → Except GoError (String → BucketHandle σ) × ω)
    (conf : Storage) (w : ω) : (Option (I σ) × Option GoError) × ω :=
  match newStorageClient conf.Creds w with
  | (.error err, w1) => ((none, some err), w1)
  | (.ok client, w1) => ((some { Config := conf, Bucket := client conf.Bucket }, none), w1)

/-- Function `blobkv.GetStoreInterface`: the `switch` has the single case
`model.GCS`, which assigns both results of `gcs.NewClient`; any other selector
falls through to the `return` of the zero results. -/
def GetStoreInterface
    (newStorageClient : String → ω → Except GoError (String → BucketHandle σ) × ω)
    (backend : Backend) (conf : Storage) (w : ω) : (StoreI σ × Option GoError) × ω :=
  if backend = GCS then
    match NewClient newStorageClient conf w with
    | ((i, err), w1) => ((StoreI.gcs i, err), w1)
  else ((StoreI.nil, none), w)

end Factory

/-! ## Recording the calls made to a bucket -/

deriving instance DecidableEq for Except

/-- One call of a primitive of the bucket. -/
inductive Call where
  | Attrs (name : String)
  | NewWriter (name : String)
  | AttrsMetadata (name : String) (m : Metadata)
  | Write (w : Writer) (b : Bytes)
  | Close (w : Writer)
  | NewReader (name : String)
  | Delete (name : String)
  | Objects (q : Query)
  deriving DecidableEq, Repr

/-- The record of the calls made to a bucket, oldest first. -/
abbrev CallLog := List Call

/-- The bucket `B` with a record of the calls made to it: every primitive answers as
in `B` and appends its call to the record. -/
def BucketHandle.traced {σ : Type} (B : BucketHandle σ) : BucketHandle (σ × CallLog) where
  Attrs name s := ((B.Attrs name s.1).1, ((B.Attrs name s.1).2, s.2 ++ [Call.Attrs name]))
  NewWriter name s := (B.NewWriter name s.1, s.2 ++ [Call.NewWriter name])
  AttrsMetadata name m s :=
    ((B.AttrsMetadata name m s.1).1,
      ((B.AttrsMetadata name m s.1).2, s.2 ++ [Call.AttrsMetadata name m]))
  Write w b s := ((B.Write w b s.1).1, ((B.Write w b s.1).2, s.2 ++ [Call.Write w b]))
  Close w s := ((B.Close w s.1).1, ((B.Close w s.1).2, s.2 ++ [Call.Close w]))
  NewReader name s :=
    ((B.NewReader name s.1).1, ((B.NewReader name s.1).2, s.2 ++ [Call.NewReader name]))
  Delete name s := ((B.Delete name s.1).1, ((B.Delete name s.1).2, s.2 ++ [Call.Delete name]))
  Objects q s := ((B.Objects q s.1).1, ((B.Objects q s.1).2, s.2 ++ [Call.Objects q]))

/-- The adapter `i` over the recording bucket. -/
def I.traced {σ : Type} (i : I σ) : I (σ × CallLog) :=
  { Config := i.Config, Bucket := i.Bucket.traced }

/-! ## A bucket held in memory -/

/-- A stored object: its body and the attributes the writer committed. -/
structure Object where
  Body : Bytes
  Metadata : Metadata
  ContentType : String
  CacheControl : String
  deriving DecidableEq, Repr

/-- The state of a bucket held in memory: the objects by name (at most one entry per
name) and the bytes the open writer has buffered. -/
structure MemState where
  objects : List (String × Object)
  pending : Bytes
  deriving DecidableEq, Repr

/-- The object stored under `name`. -/
def MemState.find (st : MemState) (name : String) : Option Object :=
  st.objects.lookup name

/-- The objects with `o` stored under `name`, replacing what was there. -/
def putObject (name : String) (o : Object) (objs : List (String × Object)) :
    List (String × Object) :=
  (name, o) :: objs.filter (fun e => e.1 ≠ name)

/-- The part of `rest` up to and including the first occurrence of `delim`; `none`
when `delim` is empty or does not occur. -/
def upToDelim (delim : List Char) : List Char → Option (List Char)
  | [] => none
  | c :: cs =>
    if delim ≠ [] ∧ delim.isPrefixOf (c :: cs) then some delim
    else (upToDelim delim cs).map (fun r => c :: r)

/-- The group of the object `name` in a listing with `q`: the query prefix extended
up to and including the first delimiter behind it, when there is one. -/
def groupOf (q : Query) (name : String) : Option String :=
  (upToDelim q.Delimiter.data (name.data.drop q.Prefix.data.length)).map
    (fun d => q.Prefix ++ ⟨d⟩)

/-- The order of object names in a listing: lexicographic by code point. -/
def charsLe : List Char → List Char → Bool
  | [], _ => true
  | _ :: _, [] => false
  | a :: as, b :: bs =>
    if a.toNat < b.toNat then true
    else if b.toNat < a.toNat then false
    else charsLe as bs

/-- Insertion of `a` into a list ordered by `le`. -/
def insertSorted {α : Type} (le : α → α → Bool) (a : α) : List α → List α
  | [] => [a]
  | b :: bs => if le a b then a :: b :: bs else b :: insertSorted le a bs

/-- The list `l` ordered by `le`. -/
def sortBy {α : Type} (le : α → α → Bool) (l : List α) : List α :=
  l.foldr (insertSorted le) []

/-- The entries of a listing with `q`, as the storage client delivers them: among the
objects whose name starts with the query prefix, first those with no delimiter
behind the prefix, as entries with their `Name` and an empty `Prefix`, in the order
of the names; then one entry per group of the others, with only `Prefix` set, in the
order of the group paths. -/
def listEntries (q : Query) (objs : List (String × Object)) : List ObjectAttrs :=
  let under := objs.filter (fun e => q.Prefix.data.isPrefixOf e.1.data)
  let items := under.filterMap (fun e =>
    match groupOf q e.1 with
    | none => some
        { Name := e.1, Prefix := "", Metadata := e.2.Metadata,
          ContentType := e.2.ContentType, CacheControl := e.2.CacheControl }
    | some _ => none)
  let groups := (under.filterMap (fun e => groupOf q e.1)).dedup
  sortBy (fun a b => charsLe a.Name.data b.Name.data) items ++
    (sortBy (fun a b => charsLe a.data b.data) groups).map (fun g =>
      { Name := "", Prefix := g, Metadata := none, ContentType := "", CacheControl := "" })

/-- The bucket held in memory, with no transport failure, behaving as the bucket of
the storage client. `Attrs`, `NewReader` and `Delete` fail with
`storage.ErrObjectNotExist` on a name with no object. `Attrs()` of a writer is the
result of its upload and is nil until the writer is closed, so `AttrsMetadata`
has the flag `false`. A writer buffers what is written and `Close` commits the
buffered body with the content type and the cache directive of the writer and no
metadata, replacing the object of that name; a writer closed with nothing written
commits the empty body. -/
def memBucket : BucketHandle MemState where
  Attrs name st :=
    match st.find name with
    | some _ => (none, st)
    | none => (some ErrObjectNotExist, st)
  NewWriter _ st := { st with pending := [] }
  AttrsMetadata _ _ st := (false, st)
  Write _ b st := (none, { st with pending := st.pending ++ b })
  Close w st :=
    (none,
      { objects := putObject w.Object
          { Body := st.pending, Metadata := none,
            ContentType := w.ContentType, CacheControl := w.CacheControl } st.objects
        pending := [] })
  NewReader name st :=
    match st.find name with
    | some o => (.ok o.Body, st)
    | none => (.error ErrObjectNotExist, st)
  Delete name st :=
    match st.find name with
    | some _ => (none, { st with objects := st.objects.filter (fun e => e.1 ≠ name) })
    | none => (some ErrObjectNotExist, st)
  Objects q st := ((listEntries q st.objects).map Except.ok, st)

/-- The adapter over the bucket held in memory, with key prefix `pre`. -/
def memStore (pre : String) : I MemState :=
  { Config := { Creds := "", Bucket := "b", Prefix := pre }, Bucket := memBucket }

/-- The object a writer set up by `add` commits when it is closed with the body `b`
buffered. -/
def storedObject (b : Bytes) : Object :=
  { Body := b
    Metadata := none
    ContentType := "application/json"
    CacheControl := "no-cache,max-age=0" }

/-- The empty bucket. -/
def MemState.empty : MemState := { objects := [], pending := [] }

/-- A codec for payloads that are given by their JSON text: both directions are
the identity. It serves to evaluate the adapter on concrete payloads. -/
def rawCodec : JSONCodec Bytes where
  Marshal p := .ok p
  Decode b := (b, none)

/-- The text `{"foo":"bar"}`. -/
def fooBar : Bytes := [123, 34, 102, 111, 111, 34, 58, 34, 98, 97, 114, 34, 125]

/-- The text `{"n":1}`. -/
def nOne : Bytes := [123, 34, 110, 34, 58, 49, 125]

/-- The payloads `{"n": v}` of the model of `encoding/json`: the nil map, or the map
with the one key `n` holding a number `v`, which is a Go `int` or a `float64` with
an integral value. -/
inductive NumPayload where
  | nil
  | int (n : Nat)
  | float64 (n : Nat)
  deriving DecidableEq, Repr

instance : Inhabited NumPayload := ⟨NumPayload.nil⟩

/-- The decimal digits of `n`. -/
def decimal (n : Nat) : Bytes :=
  (Nat.toDigits 10 n).map (fun c => c.toNat.toUInt8)

/-- The number written by the decimal digits `ds` behind the digits read into `acc`. -/
def parseDecimal : Bytes → Nat → Option Nat
  | [], acc => some acc
  | d :: ds, acc =>
    if 48 ≤ d.toNat ∧ d.toNat ≤ 57 then parseDecimal ds (acc * 10 + (d.toNat - 48))
    else none

/-- The text `{"n":` that opens the body of a `NumPayload`. -/
def numOpen : Bytes := [123, 34, 110, 34, 58]

/-- The text `null`. -/
def nullText : Bytes := [110, 117, 108, 108]

/-- The largest integer up to which every integer is a `float64`. -/
def maxExact : Nat := 2 ^ 53

/-- The codec `encoding/json` on the payloads `{"n": v}` with `v` up to `maxExact`.
`json.Marshal` writes an `int` and a `float64` of the same integral value as the same
digits, and the nil map as `null`. `Decode` into a `map[string]interface{}` gives
every JSON number as a `float64`. Numbers above `maxExact` and bodies of another
form lie outside the model and are reported as errors. -/
def numberCodec : JSONCodec NumPayload where
  Marshal p :=
    match p with
    | .nil => .ok nullText
    | .int n =>
      if n ≤ maxExact then .ok (numOpen ++ decimal n ++ [125])
      else .error (.text "outside the model")
    | .float64 n =>
      if n ≤ maxExact then .ok (numOpen ++ decimal n ++ [125])
      else .error (.text "outside the model")
  Decode b :=
    if b = nullText then (.nil, none)
    else if numOpen.isPrefixOf b ∧ b.getLast? = some 125 then
      match parseDecimal ((b.drop numOpen.length).dropLast) 0 with
      | some n =>
        if n ≤ maxExact ∧ decimal n = (b.drop numOpen.length).dropLast then
          (.float64 n, none)
        else (.nil, some (.text "outside the model"))
      | none => (.nil, some (.text "outside the model"))
    else (.nil, some (.text "outside the model"))

/-- A bucket whose upload is refused at the commit: `Write` accepts the bytes and
`Close` fails. `present` tells whether `Attrs` finds the object. `Attrs()` of a
writer is nil, as for the writer of the storage client. -/
def commitFailBucket (present : Bool) : BucketHandle Unit where
  Attrs _ s := (if present then none else some ErrObjectNotExist, s)
  NewWriter _ s := s
  AttrsMetadata _ _ s := (false, s)
  Write _ _ s := (none, s)
  Close _ s := (some (.text "googleapi: Error 503: Service Unavailable"), s)
  NewReader _ s := (.error ErrObjectNotExist, s)
  Delete _ s := (some ErrObjectNotExist, s)
  Objects _ s := ([], s)

/-- A bucket that cannot be reached: every primitive fails with a transport error,
except `Write` and `Close` of a writer, which succeed. `Attrs()` of a writer is
nil, as for the writer of the storage client. -/
def unreachableAttrsBucket : BucketHandle Unit where
  Attrs _ s := (some (.text "context deadline exceeded"), s)
  NewWriter _ s := s
  AttrsMetadata _ _ s := (false, s)
  Write _ _ s := (none, s)
  Close _ s := (none, s)
  NewReader _ s := (.error (.text "context deadline exceeded"), s)
  Delete _ s := (some (.text "context deadline exceeded"), s)
  Objects _ s := ([.error (.text "context deadline exceeded")], s)

/-- The adapter with key prefix `stacks` over a bucket. -/
def stacksOver {σ : Type} (B : BucketHandle σ) : I σ :=
  { Config := { Creds := "", Bucket := "b", Prefix := "stacks" }, Bucket := B }

/-- The bucket in memory holding one object, `stacks/k1`, with the body `fooBar`. -/
def oneObject : MemState :=
  { objects :=
      [("stacks/k1", { Body := fooBar, Metadata := none, ContentType := "application/json",
                       CacheControl := "no-cache,max-age=0" })]
    pending := [] }

/-- A bucket in memory with the two objects `stacks/a/x/z` and `stacks/a/y/w`. -/
def twoGroups : MemState :=
  { objects :=
      [("stacks/a/x/z", { Body := fooBar, Metadata := none, ContentType := "application/json",
                          CacheControl := "no-cache,max-age=0" }),
       ("stacks/a/y/w", { Body := nOne, Metadata := none, ContentType := "application/json",
                          CacheControl := "no-cache,max-age=0" })]
    pending := [] }

/-- The calls `I.addWrite` makes once the metadata is assigned: the write, when the
payload serializes, and the close. -/
def writeCalls {Payload : Type} (json : JSONCodec Payload) (w : Writer) (payload : Payload) :
    CallLog :=
  match json.Marshal payload with
  | .error _ => [Call.Close w]
  | .ok b => [Call.Write w b, Call.Close w]

/-- The calls `I.addWrite` makes from the state `s`: the opening of the writer, the
assignment of the metadata when there is one, and, unless that panics, the calls of
`writeCalls`. -/
def addCalls {σ Payload : Type} (json : JSONCodec Payload) (i : I σ) (key : String)
    (payload : Payload) (metadata : Option Metadata) (s : σ) : CallLog :=
  Call.NewWriter (i.getObject key) ::
    ((match metadata with
      | some m => [Call.AttrsMetadata (i.getObject key) m]
      | none => []) ++
     (if (i.setMetadata key metadata (i.Bucket.NewWriter (i.getObject key) s)).1 then
        writeCalls json (i.newWriter key) payload
      else []))

/-! ## The fixtures of `gcs_test.go` -/

/-- The body `mockRC` delivers: the text of the variable `json` of the test file. -/
def mockJSON : Bytes :=
  [123, 10, 9, 9, 34, 102, 111, 111, 34, 58, 32, 34, 98, 97, 114, 34, 10, 9, 125]

/-- The mock `bucketMock1` with `existObjectMock`, `mockWriter` and `mockReader`:
every object exists, a writer accepts everything and its `Attrs()` is a fresh
struct, a reader delivers `mockJSON`, and a listing has two entries with the
`Prefix` `key`. -/
def bucketMock1 : BucketHandle Unit where
  Attrs _ s := (none, s)
  NewWriter _ s := s
  AttrsMetadata _ _ s := (true, s)
  Write _ _ s := (none, s)
  Close _ s := (none, s)
  NewReader _ s := (.ok mockJSON, s)
  Delete _ s := (none, s)
  Objects _ s :=
    ([.ok { Name := "", Prefix := "key", Metadata := none, ContentType := "",
            CacheControl := "" },
      .ok { Name := "", Prefix := "key", Metadata := none, ContentType := "",
            CacheControl := "" }], s)

/-- The mock `bucketMock2` with `newObjectMock` and `mockWriter`: no object exists, a
writer accepts everything and its `Attrs()` is a fresh struct. The mock leaves `NewReader`, `Delete` and `Objects`
without an implementation and no test reaches them; here they fail. -/
def bucketMock2 : BucketHandle Unit where
  Attrs _ s := (some (.text "storage: object doesn't exist"), s)
  NewWriter _ s := s
  AttrsMetadata _ _ s := (true, s)
  Write _ _ s := (none, s)
  Close _ s := (none, s)
  NewReader _ s := (.error (.text "not implemented by the mock"), s)
  Delete _ s := (some (.text "not implemented by the mock"), s)
  Objects _ s := ([.error (.text "not implemented by the mock")], s)

/-! ## Lemmas on the string functions -/

section StringLemmas

/-- The model of `path.Clean` on rows of the table of the Go standard library's test. -/
theorem Clean_table :
    path.Clean "" = "." ∧ path.Clean "abc" = "abc" ∧ path.Clean "abc/def" = "abc/def" ∧
    path.Clean "." = "." ∧ path.Clean ".." = ".." ∧ path.Clean "../.." = "../.." ∧
    path.Clean "../../abc" = "../../abc" ∧ path.Clean "/abc" = "/abc" ∧
    path.Clean "/" = "/" ∧ path.Clean "abc/" = "abc" ∧ path.Clean "./" = "." ∧
    path.Clean "../../" = "../.." ∧ path.Clean "/abc/" = "/abc" ∧
    path.Clean "abc//def//ghi" = "abc/def/ghi" ∧ path.Clean "///abc" = "/abc" ∧
    path.Clean "//abc//" = "/abc" ∧ path.Clean "abc/./def" = "abc/def" ∧
    path.Clean "/./abc/def" = "/abc/def" ∧ path.Clean "abc/." = "abc" ∧
    path.Clean "abc/def/ghi/../jkl" = "abc/def/jkl" ∧
    path.Clean "abc/def/../ghi/../jkl" = "abc/jkl" ∧ path.Clean "abc/def/.." = "abc" ∧
    path.Clean "abc/def/../.." = "." ∧ path.Clean "/abc/def/../.." = "/" ∧
    path.Clean "abc/def/../../.." = ".." ∧ path.Clean "/abc/def/../../.." = "/" ∧
    path.Clean "abc/def/../../../ghi/jkl/../../../mno" = "../../mno" ∧
    path.Clean "abc/./../def" = "def" ∧ path.Clean "abc//./../def" = "def" ∧
    path.Clean "abc/../../././../def" = "../../def" := by
  decide

/-- The model of `path.Join` on the table of the Go standard library's test. -/
theorem Join_table :
    path.Join [] = "" ∧ path.Join [""] = "" ∧ path.Join ["a"] = "a" ∧
    path.Join ["a", "b"] = "a/b" ∧ path.Join ["a", ""] = "a" ∧ path.Join ["", "b"] = "b" ∧
    path.Join ["/", "a"] = "/a" ∧ path.Join ["/", ""] = "/" ∧
    path.Join ["a/", "b"] = "a/b" ∧ path.Join ["a/", ""] = "a" ∧
    path.Join ["", ""] = "" := by
  decide

/-- `strings.TrimPrefix` removes a prefix that is there. -/
theorem TrimPrefix_append (pre r : String) : strings.TrimPrefix (pre ++ r) pre = r := by
  unfold strings.TrimPrefix
  have h : pre.data.isPrefixOf (pre ++ r).data = true := by
    rw [ List.isPrefixOf_iff_prefix, String.data_append]
    exact List.prefix_append _ _
  rw [if_pos h]
  apply String.ext
  simp [String.data_append]

theorem dropWhile_replicate_append {α : Type} (p : α → Bool) (a : α) (ha : p a = true)
    (n : Nat) (l : List α) :
    List.dropWhile p (List.replicate n a ++ l) = List.dropWhile p l := by
  induction n with
  | zero => simp
  | succ n ih => simp [List.replicate_succ, List.dropWhile_cons, ha, ih]

theorem rdropWhile_append_replicate {α : Type} (p : α → Bool) (a : α) (ha : p a = true)
    (m : Nat) (l : List α) :
    List.rdropWhile p (l ++ List.replicate m a) = List.rdropWhile p l := by
  induction m with
  | zero => simp
  | succ m ih =>
    have hsplit : l ++ List.replicate (m + 1) a = (l ++ List.replicate m a) ++ [a] := by
      rw [List.replicate_succ', List.append_assoc]
    rw [hsplit, List.rdropWhile_concat_pos _ _ _ ha]
    exact ih

/-- `strings.Trim` with the cutset `/` on a segment without `/` between runs of `/`. -/
theorem Trim_slashes (seg : List Char) (h : '/' ∉ seg) (n m : Nat) :
    strings.Trim ⟨List.replicate n '/' ++ seg ++ List.replicate m '/'⟩ "/" = ⟨seg⟩ := by
  unfold strings.Trim
  apply String.ext
  have hcut : ("/" : String).data = ['/'] := rfl
  simp only [hcut, List.mem_singleton, List.append_assoc]
  rw [dropWhile_replicate_append _ _ (by simp)]
  cases seg with
  | nil =>
    have h0 : List.dropWhile (fun c => decide (c = '/')) ([] ++ List.replicate m '/') = [] := by
      have h := dropWhile_replicate_append (fun c => decide (c = '/')) '/' (by simp) m []
      rw [List.append_nil] at h
      rw [List.nil_append, h]
      rfl
    rw [h0]
    rfl
  | cons c cs =>
    have hc : c ≠ '/' := fun hc => h (by simp [hc])
    have h1 : List.dropWhile (fun c => decide (c = '/')) (c :: cs ++ List.replicate m '/')
        = c :: cs ++ List.replicate m '/' := by
      simp [List.dropWhile_cons, hc]
    rw [h1, rdropWhile_append_replicate _ _ (by simp)]
    rcases List.eq_nil_or_concat (c :: cs) with hs | ⟨l, d, hs⟩
    · simp at hs
    · rw [hs, List.concat_eq_append]
      have hd : d ≠ '/' := fun hd => h (by rw [hs]; simp [hd])
      rw [List.rdropWhile_concat_neg]
      simp [hd]

end StringLemmas

/-! ## The claims -/

section Claims

variable {σ ω Payload : Type}

/-- The adapter over the recording bucket resolves keys to the same object names. -/
theorem traced_getObject (i : I σ) (key : String) : i.traced.getObject key = i.getObject key :=
  rfl

/-- C1: when the attribute lookup of the object of `K` fails with an error whose
message is the object-does-not-exist message of the backend, `Exists`, `Get`,
`Update` and `Delete` each return `ObjectDoesNotExistsError`, which is the HTTP 404
error with the message `Object Does Not Exists`; the backend is left in the state
the lookup left it in, and the only call `Update` and `Delete` make is that lookup:
no writer is opened and no delete is issued. -/
theorem absent_key_is_not_found [Inhabited Payload] (json : JSONCodec Payload) (i : I σ)
    (K : String) (P : Payload) (M : Option Metadata) (s s1 : σ) (err : GoError)
    (hattrs : i.Bucket.Attrs (i.getObject K) s = (some err, s1))
    (hmsg : err.Error = "storage: object doesn't exist") :
    i.Exists K s = (some ObjectDoesNotExistsError, s1) ∧
    i.Get json K s = ((default, some ObjectDoesNotExistsError), s1) ∧
    i.Update json K P M s = (.returned (some ObjectDoesNotExistsError), s1) ∧
    i.Delete K s = (some ObjectDoesNotExistsError, s1) ∧
    ObjectDoesNotExistsError = GoError.http 404 "Object Does Not Exists" ∧
    ObjectDoesNotExistsError.Error = "code=404, message=Object Does Not Exists" ∧
    (∀ log : CallLog,
      i.traced.Update json K P M (s, log) =
        (.returned (some ObjectDoesNotExistsError),
          (s1, log ++ [Call.Attrs (i.getObject K)])) ∧
      i.traced.Delete K (s, log) =
        (some ObjectDoesNotExistsError, (s1, log ++ [Call.Attrs (i.getObject K)]))) := by
  have hex : i.Exists K s = (some ObjectDoesNotExistsError, s1) := by
    simp [I.Exists, hattrs, hmsg]
  have hext : ∀ log : CallLog, i.traced.Exists K (s, log) =
      (some ObjectDoesNotExistsError, (s1, log ++ [Call.Attrs (i.getObject K)])) := by
    intro log
    simp [I.Exists, I.traced, BucketHandle.traced, I.getObject, hmsg] at hattrs ⊢
    simp [hattrs, hmsg]
  refine ⟨hex, ?_, ?_, ?_, rfl, by decide, ?_⟩
  · simp [I.Get, hex]
  · simp [I.Update, hex]
  · simp [I.Delete, hex]
  · intro log
    constructor
    · simp [I.Update, hext]
    · simp [I.Delete, hext]

/-- C1 on the empty bucket held in memory: the four operations on the key `k1` give the
not-found error and the bucket is still empty. -/
theorem absent_key_is_not_found_witness :
    memBucket.Attrs ((memStore "stacks").getObject "k1") MemState.empty
      = (some ErrObjectNotExist, MemState.empty) ∧
    ErrObjectNotExist.Error = "storage: object doesn't exist" ∧
    (memStore "stacks").Exists "k1" MemState.empty
      = (some ObjectDoesNotExistsError, MemState.empty) ∧
    (memStore "stacks").Get rawCodec "k1" MemState.empty
      = ((default, some ObjectDoesNotExistsError), MemState.empty) ∧
    (memStore "stacks").Update rawCodec "k1" fooBar none MemState.empty
      = (.returned (some ObjectDoesNotExistsError), MemState.empty) ∧
    (memStore "stacks").Delete "k1" MemState.empty
      = (some ObjectDoesNotExistsError, MemState.empty) :=
  have h := absent_key_is_not_found rawCodec (memStore "stacks") "k1" fooBar none
    MemState.empty MemState.empty ErrObjectNotExist (by decide) (by decide)
  ⟨by decide, by decide, h.1, h.2.1, h.2.2.1, h.2.2.2.1⟩

/-- C9: for a backend selector other than `gcs`, `GetStoreInterface` returns the nil
store and the nil error, and the outside world is as before: `storage.NewClient`
is not called, whatever it would have answered. -/
theorem unknown_backend_gives_nil_store
    (newStorageClient : String → ω → Except GoError (String → BucketHandle σ) × ω)
    (backend : Backend) (conf : Storage) (w : ω) (h : backend ≠ GCS) :
    GetStoreInterface newStorageClient backend conf w = ((StoreI.nil, none), w) := by
  simp [GetStoreInterface, h]

/-- C9 at the selector `s3`, with a client constructor that counts its calls: the
count stays 0. -/
theorem unknown_backend_gives_nil_store_witness :
    ("s3" : Backend) ≠ GCS ∧
    GetStoreInterface
      (fun _ (n : Nat) => ((Except.ok (fun _ => memBucket) :
        Except GoError (String → BucketHandle MemState)), n + 1))
      "s3" { Creds := "creds.json", Bucket := "b", Prefix := "stacks" } 0
      = ((StoreI.nil, none), 0) :=
  ⟨by decide, unknown_backend_gives_nil_store _ "s3" _ 0 (by decide)⟩

/-- `I.listLoop` on a listing without error: one key per entry, in order, behind the
keys collected before. -/
theorem listLoop_ok (i : I σ) (k : String) (entries : List ObjectAttrs) (acc : Keys) :
    i.listLoop k (entries.map Except.ok) acc = (acc ++ entries.map (i.listKey k), none) := by
  induction entries generalizing acc with
  | nil => simp [I.listLoop]
  | cons a rest ih => simp [I.listLoop, ih]

/-- The key `List` makes from the group path `p/k/seg/`. -/
theorem listKey_group (i : I σ) (k seg : String) (hseg : '/' ∉ seg.data) (a : ObjectAttrs)
    (ha : a.Prefix = i.Config.Prefix ++ "/" ++ k ++ "/" ++ seg ++ "/") :
    i.listKey k a = { Key := seg, Metadata := a.Metadata } := by
  have h1 : a.Prefix = i.Config.Prefix ++ (("/" ++ k) ++ ("/" ++ seg ++ "/")) := by
    rw [ha]; apply String.ext; simp [String.data_append]
  have h2 : ("/" ++ seg ++ "/" : String)
      = ⟨List.replicate 1 '/' ++ seg.data ++ List.replicate 1 '/'⟩ := by
    apply String.ext; simp [String.data_append]
  simp only [I.listKey]
  rw [h1, TrimPrefix_append, TrimPrefix_append, h2, Trim_slashes _ hseg]

/-- C5: when the listing of the backend for `List(k)` delivers the entries `entries`
without an error, `List(k)` returns no error and exactly one key per entry, in the
order of the backend; and for every entry whose group path is the configured
prefix, `k` and a segment `seg` without `/`, joined with `/` and followed by a
trailing `/`, the key returned for it is `seg`. -/
theorem list_returns_child_segments (i : I σ) (k : String) (st st' : σ)
    (entries : List ObjectAttrs)
    (hobj : i.Bucket.Objects
      { Prefix := path.Join [i.Config.Prefix, k] ++ "/", Delimiter := "/" } st
        = (entries.map Except.ok, st')) :
    i.List k st = ((entries.map (i.listKey k), none), st') ∧
    (i.List k st).1.1.length = entries.length ∧
    ∀ a ∈ entries, ∀ seg : String, '/' ∉ seg.data →
      a.Prefix = i.Config.Prefix ++ "/" ++ k ++ "/" ++ seg ++ "/" →
      (i.listKey k a).Key = seg := by
  have hl : i.List k st = ((entries.map (i.listKey k), none), st') := by
    simp [I.List, hobj, listLoop_ok]
  refine ⟨hl, by simp [hl], ?_⟩
  intro a _ seg hseg ha
  rw [listKey_group i k seg hseg a ha]

/-- C5 on `twoGroups`: the listing delivers the group paths `stacks/a/x/` and
`stacks/a/y/`, `List("a")` returns the keys `x` and `y` in that order, and the key
of the entry `stacks/a/x/` is `x`. -/
theorem list_returns_child_segments_witness :
    (memStore "stacks").List "a" twoGroups
      = (([{ Key := "x", Metadata := none }, { Key := "y", Metadata := none }], none),
          twoGroups) ∧
    ((memStore "stacks").listKey "a"
      { Name := "", Prefix := "stacks/a/x/", Metadata := none, ContentType := "",
        CacheControl := "" }).Key = "x" :=
  have h := list_returns_child_segments (memStore "stacks") "a" twoGroups twoGroups
    [{ Name := "", Prefix := "stacks/a/x/", Metadata := none, ContentType := "",
       CacheControl := "" },
     { Name := "", Prefix := "stacks/a/y/", Metadata := none, ContentType := "",
       CacheControl := "" }] (by decide)
  ⟨h.1.trans (by decide), h.2.2 _ (by simp) "x" (by decide) (by decide)⟩

/-- The adapter over the recording bucket sets up the same writer. -/
theorem traced_newWriter (i : I σ) (key : String) :
    i.traced.newWriter key = i.newWriter key :=
  rfl

/-- The assignment of the metadata over the recording bucket. -/
theorem traced_setMetadata (i : I σ) (K : String) (M : Option Metadata) (s : σ)
    (log : CallLog) :
    i.traced.setMetadata K M (s, log) =
      ((i.setMetadata K M s).1,
        ((i.setMetadata K M s).2,
          log ++ (match M with
            | some m => [Call.AttrsMetadata (i.getObject K) m]
            | none => []))) := by
  cases M with
  | none => simp [I.setMetadata]
  | some m => rfl

/-- The result and the calls of the write part of `add` over the recording bucket. -/
theorem traced_addWrite (json : JSONCodec Payload) (i : I σ) (K : String) (P : Payload)
    (M : Option Metadata) (s : σ) (log : CallLog) :
    i.traced.addWrite json K P M (s, log) =
      ((i.addWrite json K P M s).1,
        ((i.addWrite json K P M s).2, log ++ addCalls json i K P M s)) := by
  have hnw : i.traced.Bucket.NewWriter (i.getObject K) (s, log)
      = (i.Bucket.NewWriter (i.getObject K) s, log ++ [Call.NewWriter (i.getObject K)]) := rfl
  simp only [I.addWrite, addCalls, writeCalls, traced_newWriter, traced_getObject, hnw,
    traced_setMetadata]
  rcases hset : i.setMetadata K M (i.Bucket.NewWriter (i.getObject K) s) with ⟨ok, s2⟩
  cases ok with
  | false => simp
  | true =>
    cases hm : json.Marshal P with
    | error e => simp [I.traced, BucketHandle.traced]
    | ok b =>
      rcases hw : i.Bucket.Write (i.newWriter K) b s2 with ⟨_ | e2, s3⟩ <;>
        simp [I.traced, BucketHandle.traced, hw]

/-- The existence check over the recording bucket. -/
theorem traced_Exists (i : I σ) (K : String) (s : σ) (log : CallLog) :
    i.traced.Exists K (s, log) =
      ((i.Exists K s).1, ((i.Exists K s).2, log ++ [Call.Attrs (i.getObject K)])) := by
  unfold I.Exists
  simp only [I.traced, BucketHandle.traced, I.getObject]
  rcases hq : i.Bucket.Attrs (path.Join [i.Config.Prefix, K]) s with ⟨_ | e, s1⟩
  · simp
  · by_cases hmsg : e.Error = "storage: object doesn't exist" <;> simp [hmsg]

/-- When the existence check succeeds, `Add` returns no error, leaves the state the
check left, and its only call is the attribute lookup. -/
theorem add_skips_when_exists (json : JSONCodec Payload) (i : I σ) (K : String)
    (P : Payload) (M : Option Metadata) (s s1 : σ) (hex : i.Exists K s = (none, s1)) :
    i.Add json K P M s = (.returned none, s1) ∧
    ∀ log : CallLog, (i.traced.Add json K P M (s, log)).2.2
      = log ++ [Call.Attrs (i.getObject K)] := by
  refine ⟨by simp [I.Add, I.add, hex], ?_⟩
  intro log
  simp [I.Add, I.add, traced_Exists, hex]

/-- The write part of `add` with nil metadata: the error returned is that of the
serialization or else that of the write. -/
theorem addWrite_nil_metadata (json : JSONCodec Payload) (i : I σ) (K : String)
    (P : Payload) (s : σ) :
    (i.addWrite json K P none s).1 =
      .returned (match json.Marshal P with
        | .error m => some m
        | .ok b => (i.Bucket.Write (i.newWriter K) b
                     (i.Bucket.NewWriter (i.getObject K) s)).1) := by
  simp only [I.addWrite, I.setMetadata]
  cases hm : json.Marshal P with
  | error m => simp
  | ok b =>
    rcases hw : i.Bucket.Write (i.newWriter K) b (i.Bucket.NewWriter (i.getObject K) s)
      with ⟨_ | e2, s2⟩ <;> simp [hw]

/-- `Add` with respect to the existence check. When `Exists` returns no error, `Add`
returns no error and its only call is the attribute lookup. For every error of
`Exists`, the not-found error or any other, `Add` goes on as `ForceAdd` does from
the state the check left and makes the calls of `addCalls` behind the lookup; with
nil metadata these are the opening of the writer, the write and the close, and the
error returned is that of the serialization or else that of the write, never that
of the check. -/
theorem add_writes_unless_exists (json : JSONCodec Payload) (i : I σ) (K : String)
    (P : Payload) (M : Option Metadata) (s : σ) :
    (∀ s1, i.Exists K s = (none, s1) →
      i.Add json K P M s = (.returned none, s1) ∧
      ∀ log : CallLog, (i.traced.Add json K P M (s, log)).2.2
        = log ++ [Call.Attrs (i.getObject K)]) ∧
    (∀ e s1, i.Exists K s = (some e, s1) →
      i.Add json K P M s = i.ForceAdd json K P M s1 ∧
      (∀ log : CallLog, (i.traced.Add json K P M (s, log)).2.2
        = log ++ Call.Attrs (i.getObject K) :: addCalls json i K P M s1) ∧
      (M = none →
        (i.Add json K P M s).1 =
          .returned (match json.Marshal P with
            | .error m => some m
            | .ok b => (i.Bucket.Write (i.newWriter K) b
                         (i.Bucket.NewWriter (i.getObject K) s1)).1) ∧
        addCalls json i K P M s1
          = Call.NewWriter (i.getObject K) :: writeCalls json (i.newWriter K) P)) := by
  constructor
  · intro s1 hex
    exact add_skips_when_exists json i K P M s s1 hex
  · intro e s1 hex
    have hadd : i.Add json K P M s = i.addWrite json K P M s1 := by
      simp [I.Add, I.add, hex]
    refine ⟨by simp [hadd, I.ForceAdd, I.add], ?_, ?_⟩
    · intro log
      simp [I.Add, I.add, traced_Exists, hex, traced_addWrite]
    · intro hM
      subst hM
      rw [hadd, addWrite_nil_metadata]
      exact ⟨rfl, by simp [addCalls, I.setMetadata]⟩

/-- `Add` at two inputs with nil metadata. On `oneObject`, where `k1` exists, `Add`
changes nothing. Over the bucket whose attribute lookup times out, `Add` returns no
error and its calls are the lookup, the opening of the writer, the write and the
close. -/
theorem add_writes_unless_exists_at_nil_metadata :
    ((memStore "stacks").Add rawCodec "k1" nOne none oneObject
      = (.returned none, oneObject)) ∧
    ((stacksOver unreachableAttrsBucket).Exists "k1" ()
      = (some (GoError.text "context deadline exceeded"), ())) ∧
    ((stacksOver unreachableAttrsBucket).Add rawCodec "k1" nOne none ()).1
      = .returned none ∧
    ((stacksOver unreachableAttrsBucket).traced.Add rawCodec "k1" nOne none ((), [])).2.2
      = [Call.Attrs "stacks/k1", Call.NewWriter "stacks/k1",
         Call.Write ((stacksOver unreachableAttrsBucket).newWriter "k1") nOne,
         Call.Close ((stacksOver unreachableAttrsBucket).newWriter "k1")] := by
  decide

/-- C10 at a failing input: on the empty bucket in memory the existence check of `k1`
gives the not-found error, and `Add` of `k1` with metadata that is not nil opens
the writer and panics at the assignment through `w.Attrs()`: its calls are the
lookup, the opening of the writer and that assignment, there is no write and no
close, and no object is stored. The same happens when the check fails with a
transport error. -/
theorem add_with_metadata_panics :
    (memStore "stacks").Exists "k1" MemState.empty
      = (some ObjectDoesNotExistsError, MemState.empty) ∧
    (memStore "stacks").Add rawCodec "k1" nOne (some (some [("foo", "bar")])) MemState.empty
      = (.panicked, MemState.empty) ∧
    ((memStore "stacks").traced.Add rawCodec "k1" nOne (some (some [("foo", "bar")]))
        (MemState.empty, [])).2.2
      = [Call.Attrs "stacks/k1", Call.NewWriter "stacks/k1",
         Call.AttrsMetadata "stacks/k1" (some [("foo", "bar")])] ∧
    ((stacksOver unreachableAttrsBucket).Add rawCodec "k1" nOne
        (some (some [("foo", "bar")])) ()).1 = .panicked := by
  decide

/-- C7 at a failing input: over the bucket whose writer accepts the bytes and fails
at the close, `Add` of an absent key, `ForceAdd`, and `Update` of a present key
return no error, although the close of the writer they used returns an error. -/
theorem add_drops_the_close_error :
    ((stacksOver (commitFailBucket false)).Add rawCodec "key" fooBar none ()).1
      = .returned none ∧
    ((stacksOver (commitFailBucket false)).ForceAdd rawCodec "key" fooBar none ()).1
      = .returned none ∧
    ((stacksOver (commitFailBucket true)).Update rawCodec "key" fooBar none ()).1
      = .returned none ∧
    ((commitFailBucket false).Close
        ((stacksOver (commitFailBucket false)).newWriter "key") ()).1
      = some (GoError.text "googleapi: Error 503: Service Unavailable") ∧
    ((stacksOver (commitFailBucket false)).traced.Add rawCodec "key" fooBar none ((), [])).2.2
      = [Call.Attrs "stacks/key", Call.NewWriter "stacks/key",
         Call.Write ((stacksOver (commitFailBucket false)).newWriter "key") fooBar,
         Call.Close ((stacksOver (commitFailBucket false)).newWriter "key")] := by
  decide

/-- A failure of the write itself is returned by `add`, whatever the close does. -/
theorem addWrite_returns_write_error (json : JSONCodec Payload) (i : I σ) (K : String)
    (P : Payload) (M : Option Metadata) (s s1 s2 : σ) (b : Bytes) (err : GoError)
    (hset : i.setMetadata K M (i.Bucket.NewWriter (i.getObject K) s) = (true, s1))
    (hm : json.Marshal P = .ok b)
    (hw : i.Bucket.Write (i.newWriter K) b s1 = (some err, s2)) :
    (i.addWrite json K P M s).1 = .returned (some err) := by
  simp [I.addWrite, hset, hm, hw]

/-! ### The bucket held in memory -/

theorem lookup_putObject_self (name : String) (o : Object) (objs : List (String × Object)) :
    (putObject name o objs).lookup name = some o := by
  simp [putObject, List.lookup_cons]

theorem lookup_filter_ne (n name : String) (hn : n ≠ name) (objs : List (String × Object)) :
    (objs.filter (fun e => e.1 ≠ name)).lookup n = objs.lookup n := by
  induction objs with
  | nil => rfl
  | cons e rest ih =>
    obtain ⟨k, v⟩ := e
    by_cases hk : k = name
    · subst hk
      have hnk : (n == k) = false := by simpa using hn
      rw [List.filter_cons_of_neg (by simp), List.lookup_cons, hnk]
      exact ih
    · rw [List.filter_cons_of_pos (by simpa using hk), List.lookup_cons, List.lookup_cons, ih]

theorem lookup_putObject_ne (n name : String) (hn : n ≠ name) (o : Object)
    (objs : List (String × Object)) :
    (putObject name o objs).lookup n = objs.lookup n := by
  have hb : (n == name) = false := by simpa using hn
  rw [putObject, List.lookup_cons, hb]
  exact lookup_filter_ne n name hn objs

/-- The attribute lookup on the bucket in memory. -/
theorem mem_Attrs (pre name : String) (st : MemState) :
    (memStore pre).Bucket.Attrs name st =
      ((match st.find name with
        | some _ => none
        | none => some ErrObjectNotExist), st) := by
  show (match st.find name with
    | some _ => (none, st)
    | none => (some ErrObjectNotExist, st)) = _
  cases st.find name <;> rfl

/-- The reader of the bucket in memory. -/
theorem mem_NewReader (pre name : String) (st : MemState) :
    (memStore pre).Bucket.NewReader name st =
      ((match st.find name with
        | some o => .ok o.Body
        | none => .error ErrObjectNotExist), st) := by
  show (match st.find name with
    | some o => (Except.ok o.Body, st)
    | none => (Except.error ErrObjectNotExist, st)) = _
  cases st.find name <;> rfl

/-- The write part of `add` with nil metadata on the bucket in memory: the object of the
key is replaced by the object with the serialized payload as body (the empty body
when the payload does not serialize), and the error is that of the serialization. -/
theorem mem_addWrite (json : JSONCodec Payload) (pre K : String) (P : Payload)
    (st : MemState) :
    (memStore pre).addWrite json K P none st =
      (.returned (match json.Marshal P with
        | .error e => some e
        | .ok _ => none),
       { objects := putObject ((memStore pre).getObject K)
           (storedObject (match json.Marshal P with
             | .error _ => []
             | .ok b => b)) st.objects
         pending := [] }) := by
  simp only [I.addWrite, I.setMetadata]
  cases hm : json.Marshal P <;>
    simp [memStore, memBucket, I.newWriter, storedObject, I.getObject]

/-- The write part of `add` with metadata that is not nil on the bucket in memory: the
writer is opened and the assignment through `w.Attrs()` panics; no object changes. -/
theorem mem_addWrite_panics (json : JSONCodec Payload) (pre K : String) (P : Payload)
    (m : Metadata) (st : MemState) :
    (memStore pre).addWrite json K P (some m) st
      = (.panicked, { objects := st.objects, pending := [] }) := by
  simp [I.addWrite, I.setMetadata, memStore, memBucket]

/-- The write part of `add` on the bucket in memory changes no object of another name. -/
theorem mem_addWrite_other (json : JSONCodec Payload) (pre K : String) (P : Payload)
    (M : Option Metadata) (st : MemState) (n : String)
    (hn : n ≠ (memStore pre).getObject K) :
    ((memStore pre).addWrite json K P M st).2.find n = st.find n := by
  cases M with
  | none =>
    rw [mem_addWrite]
    simp [MemState.find, lookup_putObject_ne n _ hn]
  | some m =>
    rw [mem_addWrite_panics]
    rfl

/-- The existence check on the bucket in memory leaves the bucket as it is and
succeeds exactly on the keys whose object is there. -/
theorem mem_Exists (pre K : String) (st : MemState) :
    (memStore pre).Exists K st =
      ((match st.find ((memStore pre).getObject K) with
        | some _ => none
        | none => some ObjectDoesNotExistsError), st) := by
  unfold I.Exists
  rw [mem_Attrs]
  cases st.find ((memStore pre).getObject K) with
  | none => rfl
  | some o => rfl

/-- `ForceAdd` with nil metadata on the bucket in memory, for every state of the
bucket (the object of `K` there or not): `ForceAdd(K, P1, M1)` followed by
`ForceAdd(K, P2, nil)` with a payload `P2` that serializes to `b2` returns no error
and leaves at the object of `K` exactly the body `b2`, nothing of the first call;
every object of another name is as before both calls; and the calls of `ForceAdd`
are the opening of the writer, the write and the close: there is no attribute
lookup. -/
theorem forceAdd_nil_metadata_overwrites (json : JSONCodec Payload) (pre K : String)
    (P1 P2 : Payload) (M1 : Option Metadata) (st : MemState) (b2 : Bytes)
    (h2 : json.Marshal P2 = .ok b2) :
    ((memStore pre).ForceAdd json K P2 none ((memStore pre).ForceAdd json K P1 M1 st).2).1
      = .returned none ∧
    ((memStore pre).ForceAdd json K P2 none ((memStore pre).ForceAdd json K P1 M1 st).2).2.find
        ((memStore pre).getObject K) = some (storedObject b2) ∧
    (∀ n, n ≠ (memStore pre).getObject K →
      ((memStore pre).ForceAdd json K P2 none
        ((memStore pre).ForceAdd json K P1 M1 st).2).2.find n = st.find n) ∧
    (∀ (s : MemState) (log : CallLog),
      ((memStore pre).traced.ForceAdd json K P2 none (s, log)).2.2
        = log ++ [Call.NewWriter ((memStore pre).getObject K),
                  Call.Write ((memStore pre).newWriter K) b2,
                  Call.Close ((memStore pre).newWriter K)]) := by
  have hf : ∀ (P : Payload) (M : Option Metadata) (s : MemState),
      (memStore pre).ForceAdd json K P M s = (memStore pre).addWrite json K P M s := by
    intro P M s; simp [I.ForceAdd, I.add]
  rw [hf, hf]
  refine ⟨?_, ?_, ?_, ?_⟩
  · rw [mem_addWrite]; simp [h2]
  · rw [mem_addWrite]; simp [MemState.find, h2, lookup_putObject_self]
  · intro n hn
    rw [mem_addWrite_other _ _ _ _ _ _ n hn, mem_addWrite_other _ _ _ _ _ _ n hn]
  · intro s log
    have ht : (memStore pre).traced.ForceAdd json K P2 none (s, log)
        = (memStore pre).traced.addWrite json K P2 none (s, log) := by
      simp [I.ForceAdd, I.add]
    rw [ht, traced_addWrite]
    simp [addCalls, writeCalls, I.setMetadata, h2]

/-- C8 at a failing input: on the bucket in memory, after `ForceAdd` of `fooBar` at `k1`
with nil metadata, `ForceAdd` of `nOne` at `k1` with metadata that is not nil opens
the writer and panics at the assignment through `w.Attrs()`: there is no write
and no close, and the object `stacks/k1` still holds `fooBar`, not `nOne`. -/
theorem forceAdd_with_metadata_panics :
    ((memStore "stacks").ForceAdd rawCodec "k1" fooBar none MemState.empty).1
      = .returned none ∧
    ((memStore "stacks").ForceAdd rawCodec "k1" nOne (some (some [("foo", "bar")]))
      ((memStore "stacks").ForceAdd rawCodec "k1" fooBar none MemState.empty).2).1
      = .panicked ∧
    ((memStore "stacks").ForceAdd rawCodec "k1" nOne (some (some [("foo", "bar")]))
      ((memStore "stacks").ForceAdd rawCodec "k1" fooBar none MemState.empty).2).2.find
        "stacks/k1" = some (storedObject fooBar) ∧
    ((memStore "stacks").traced.ForceAdd rawCodec "k1" nOne (some (some [("foo", "bar")]))
      (((memStore "stacks").ForceAdd rawCodec "k1" fooBar none MemState.empty).2, [])).2.2
      = [Call.NewWriter "stacks/k1",
         Call.AttrsMetadata "stacks/k1" (some [("foo", "bar")])] := by
  decide

/-- On the bucket in memory `add` writes when it is forced or the object is absent. -/
theorem mem_add_writes (json : JSONCodec Payload) (pre K : String) (P : Payload)
    (M : Option Metadata) (force : Bool) (st : MemState)
    (hw : force = true ∨ st.find ((memStore pre).getObject K) = none) :
    (memStore pre).add json K P M force st = (memStore pre).addWrite json K P M st := by
  rcases hw with hforce | habs
  · simp [I.add, hforce]
  · cases force
    · simp [I.add, mem_Exists, habs]
    · simp [I.add]

/-- C3 as stated fails for a payload holding a Go `int`: on the empty bucket in memory
`Add` of the payload `{"n": 1}` with the `int` 1 at `k1` returns no error and stores
the body `{"n":1}`, and `Get` of `k1` returns, with no error, the payload with the
`float64` 1, which is not deep-equal to the payload written. -/
theorem get_returns_float64_for_int :
    numberCodec.Marshal (NumPayload.int 1) = .ok nOne ∧
    ((memStore "stacks").Add numberCodec "k1" (NumPayload.int 1) none MemState.empty).1
      = .returned none ∧
    ((memStore "stacks").Get numberCodec "k1"
      ((memStore "stacks").Add numberCodec "k1" (NumPayload.int 1) none MemState.empty).2).1
      = (NumPayload.float64 1, none) ∧
    NumPayload.float64 1 ≠ NumPayload.int 1 := by
  decide

/-- C3, amended: on the bucket in memory, let `P` serialize to `b` and let the decoder
turn `b` back into `P`. After a successful write of `P` at `K`, by `ForceAdd`
(`force` true) or by `Add` (`force` false) on a key whose object is absent, the
stored body is `b`, and `Get(K)` returns what the decoder makes of that body, which
is `P` with no error, and leaves the bucket as it is. With nil metadata the write
is successful. -/
theorem get_after_write_round_trip [Inhabited Payload] (json : JSONCodec Payload)
    (pre K : String) (P : Payload) (M : Option Metadata) (force : Bool) (st : MemState)
    (b : Bytes) (hm : json.Marshal P = .ok b) (hd : json.Decode b = (P, none))
    (hw : force = true ∨ st.find ((memStore pre).getObject K) = none)
    (hs : ((memStore pre).add json K P M force st).1 = .returned none) :
    (((memStore pre).add json K P M force st).2.find ((memStore pre).getObject K)).map
        Object.Body = some b ∧
    (memStore pre).Get json K ((memStore pre).add json K P M force st).2
      = (json.Decode b, ((memStore pre).add json K P M force st).2) ∧
    (memStore pre).Get json K ((memStore pre).add json K P M force st).2
      = ((P, none), ((memStore pre).add json K P M force st).2) ∧
    ((memStore pre).add json K P none force st).1 = .returned none := by
  have hadd := mem_add_writes json pre K P M force st hw
  cases M with
  | some m =>
    rw [hadd, mem_addWrite_panics] at hs
    exact absurd hs (by simp)
  | none =>
    rw [hadd, mem_addWrite]
    simp only [hm]
    have hfind : MemState.find
        { objects := putObject ((memStore pre).getObject K) (storedObject b) st.objects,
          pending := [] } ((memStore pre).getObject K) = some (storedObject b) := by
      simp [MemState.find, lookup_putObject_self]
    have hget : (memStore pre).Get json K
        { objects := putObject ((memStore pre).getObject K) (storedObject b) st.objects,
          pending := [] }
        = (json.Decode b,
          { objects := putObject ((memStore pre).getObject K) (storedObject b) st.objects,
            pending := [] }) := by
      unfold I.Get
      rw [mem_Exists, hfind]
      simp only []
      rw [mem_NewReader, hfind]
      rfl
    refine ⟨?_, hget, ?_, trivial⟩
    · rw [hfind]; rfl
    · rw [hget, hd]

/-- C3, amended, on the empty bucket with the payload `{"n": 1}` holding the `float64`
1: `Add` at `k1` with nil metadata is successful and `Get` of `k1` returns the
payload written. -/
theorem get_after_write_round_trip_witness :
    numberCodec.Marshal (NumPayload.float64 1) = .ok nOne ∧
    numberCodec.Decode nOne = (NumPayload.float64 1, none) ∧
    MemState.empty.find ((memStore "stacks").getObject "k1") = none ∧
    ((memStore "stacks").add numberCodec "k1" (NumPayload.float64 1) none false
      MemState.empty).1 = .returned none ∧
    ((memStore "stacks").Get numberCodec "k1"
      ((memStore "stacks").add numberCodec "k1" (NumPayload.float64 1) none false
        MemState.empty).2).1 = (NumPayload.float64 1, none) :=
  have h := get_after_write_round_trip numberCodec "stacks" "k1" (NumPayload.float64 1) none
    false MemState.empty nOne (by decide) (by decide) (Or.inr (by decide)) (by decide)
  ⟨by decide, by decide, by decide, by decide, congrArg Prod.fst h.2.2.1⟩

/-- C2 as stated fails on `oneObject`, where `stacks/k1` already holds `fooBar`:
`k1` exists after `Add(k1, nOne, M1)`, the second `Add` returns no error, and the
object after both calls is the old one, with the body `fooBar` and no metadata, not
the body `nOne` and the metadata `M1`. -/
theorem add_twice_keeps_older_object :
    ((memStore "stacks").Exists "k1"
      ((memStore "stacks").Add rawCodec "k1" nOne (some (some [("foo", "bar")])) oneObject).2).1
      = none ∧
    ((memStore "stacks").Add rawCodec "k1" fooBar none
      ((memStore "stacks").Add rawCodec "k1" nOne (some (some [("foo", "bar")])) oneObject).2).1
      = .returned none ∧
    ((memStore "stacks").Add rawCodec "k1" fooBar none
      ((memStore "stacks").Add rawCodec "k1" nOne (some (some [("foo", "bar")])) oneObject).2).2.find
        "stacks/k1" = some (storedObject fooBar) ∧
    (storedObject fooBar).Body ≠ nOne ∧
    (storedObject fooBar).Metadata ≠ some [("foo", "bar")] := by
  decide

/-- C2, amended: on the bucket in memory, if `K` exists after `Add(K, P1, M1)`, then
`Add(K, P2, M2)` returns no error and changes nothing, its only call being the
attribute lookup: the bucket after both calls is the bucket after the first call.
The object of `K` in it holds the body of `P1` when the first call wrote it, which
it did when the object of `K` was absent before it, `M1` is nil and `P1`
serialized. -/
theorem add_on_existing_key_is_noop (json : JSONCodec Payload) (pre K : String)
    (P1 P2 : Payload) (M1 M2 : Option Metadata) (st : MemState)
    (hex : ((memStore pre).Exists K ((memStore pre).Add json K P1 M1 st).2).1 = none) :
    (memStore pre).Add json K P2 M2 ((memStore pre).Add json K P1 M1 st).2
      = (.returned none, ((memStore pre).Add json K P1 M1 st).2) ∧
    (∀ log : CallLog,
      ((memStore pre).traced.Add json K P2 M2
        (((memStore pre).Add json K P1 M1 st).2, log)).2.2
        = log ++ [Call.Attrs ((memStore pre).getObject K)]) ∧
    (∀ b1, st.find ((memStore pre).getObject K) = none → M1 = none →
      json.Marshal P1 = .ok b1 →
      ((memStore pre).Add json K P2 M2 ((memStore pre).Add json K P1 M1 st).2).2.find
        ((memStore pre).getObject K) = some (storedObject b1)) := by
  have hex2 : (memStore pre).Exists K ((memStore pre).Add json K P1 M1 st).2
      = (none, ((memStore pre).Add json K P1 M1 st).2) := by
    rw [mem_Exists] at hex ⊢
    simp only at hex
    rw [hex]
  have hnoop := add_skips_when_exists json (memStore pre) K P2 M2
    ((memStore pre).Add json K P1 M1 st).2 _ hex2
  refine ⟨hnoop.1, hnoop.2, ?_⟩
  intro b1 habs hM hm
  subst hM
  rw [hnoop.1]
  have h1 : (memStore pre).Add json K P1 none st
      = (memStore pre).addWrite json K P1 none st :=
    mem_add_writes json pre K P1 none false st (Or.inr habs)
  rw [h1, mem_addWrite]
  simp [MemState.find, hm, lookup_putObject_self]

/-- C2, amended, on the empty bucket: after `Add` of `fooBar` and then of `nOne` at
`k1`, the object `stacks/k1` holds `fooBar`. -/
theorem add_on_existing_key_is_noop_witness :
    ((memStore "stacks").Exists "k1"
      ((memStore "stacks").Add rawCodec "k1" fooBar none MemState.empty).2).1 = none ∧
    ((memStore "stacks").Add rawCodec "k1" nOne (some (some [("foo", "bar")]))
      ((memStore "stacks").Add rawCodec "k1" fooBar none MemState.empty).2).2.find "stacks/k1"
      = some (storedObject fooBar) :=
  have h := add_on_existing_key_is_noop rawCodec "stacks" "k1" fooBar nOne none
    (some (some [("foo", "bar")])) MemState.empty (by decide)
  ⟨by decide, h.2.2 fooBar (by decide) rfl rfl⟩

/-! ### The object path of a key -/

theorem splitOn_append_sep (a : Char) (xs ys : List Char) :
    (xs ++ a :: ys).splitOn a = xs.splitOn a ++ ys.splitOn a := by
  induction xs with
  | nil => simp [List.splitOn]
  | cons x xs ih =>
    simp only [List.splitOn] at ih ⊢
    rw [List.cons_append, List.splitOnP_cons, List.splitOnP_cons, ih]
    by_cases hx : (x == a) = true
    · simp [hx]
    · simp only [hx, Bool.false_eq_true, if_false]
      cases hs : List.splitOnP (fun t => t == a) xs with
      | nil => exact absurd hs (List.splitOnP_ne_nil _ _)
      | cons h t => simp

/-- On elements that are names, the element loop of `path.Clean` keeps them all. -/
theorem cleanElems_names (rooted : Bool) (out es : List (List Char))
    (h : ∀ e ∈ es, e ≠ [] ∧ e ≠ ['.'] ∧ e ≠ ['.', '.']) :
    path.cleanElems rooted out es = out.reverse ++ es := by
  induction es generalizing out with
  | nil => simp [path.cleanElems]
  | cons e es ih =>
    have he := h e (by simp)
    have hes : ∀ e ∈ es, e ≠ [] ∧ e ≠ ['.'] ∧ e ≠ ['.', '.'] :=
      fun x hx => h x (by simp [hx])
    have hstep : path.cleanElems rooted out (e :: es) = path.cleanElems rooted (e :: out) es := by
      simp [path.cleanElems, he.1, he.2.1, he.2.2]
    rw [hstep, ih _ hes]
    simp

theorem plainPath_elems (s : String) (h : plainPath s = true) :
    ∀ e ∈ s.data.splitOn '/', e ≠ [] ∧ e ≠ ['.'] ∧ e ≠ ['.', '.'] := by
  intro e he
  have := List.all_eq_true.mp h e he
  simpa using this

theorem plainPath_ne_nil (s : String) (h : plainPath s = true) : s.data ≠ [] := by
  intro hs
  have := plainPath_elems s h [] (by rw [hs]; simp)
  exact this.1 rfl

theorem plainPath_head (s : String) (h : plainPath s = true) : s.data.head? ≠ some '/' := by
  intro hh
  cases hs : s.data with
  | nil => rw [hs] at hh; simp at hh
  | cons c cs =>
    rw [hs] at hh
    simp only [List.head?_cons, Option.some.injEq] at hh
    have := plainPath_elems s h [] (by rw [hs, hh]; simp [List.splitOn])
    exact this.1 rfl

/-- `path.Join` of two plain paths is the two with a slash between. -/
theorem Join_plain (p k : String) (hp : plainPath p = true) (hk : plainPath k = true) :
    path.Join [p, k] = p ++ "/" ++ k := by
  have hpne : p ≠ "" := fun h => plainPath_ne_nil p hp (by rw [h])
  have hjoin : path.joinSlash [p, k] = ⟨p.data ++ '/' :: k.data⟩ := by
    simp [path.joinSlash, List.intercalate]
  have hne : (⟨p.data ++ '/' :: k.data⟩ : String) ≠ "" := by
    intro h
    have := congrArg String.data h
    simp at this
  have hhead : (p.data ++ '/' :: k.data).head? ≠ some '/' := by
    cases hs : p.data with
    | nil => exact absurd hs (plainPath_ne_nil p hp)
    | cons c cs =>
      have := plainPath_head p hp
      rw [hs] at this
      simpa using this
  have helems : ∀ e ∈ (p.data ++ '/' :: k.data).splitOn '/',
      e ≠ [] ∧ e ≠ ['.'] ∧ e ≠ ['.', '.'] := by
    intro e he
    rw [splitOn_append_sep, List.mem_append] at he
    rcases he with he | he
    · exact plainPath_elems p hp e he
    · exact plainPath_elems k hk e he
  rw [path.Join, if_pos hpne, hjoin, path.Clean, if_neg hne]
  simp only [hhead, decide_False, Bool.false_eq_true, if_false]
  rw [cleanElems_names _ _ _ helems]
  simp only [List.reverse_nil, List.nil_append]
  rw [List.intercalate_splitOn]
  have hbody : p.data ++ '/' :: k.data ≠ [] := by simp
  rw [if_neg hbody]
  apply String.ext
  simp [String.data_append]

/-- C6 as stated fails at the key `../etc/passwd` under the prefix `stacks`: the
object path is `etc/passwd`, which is not the prefix, a slash and the key, and does
not start with `stacks/`. -/
theorem getObject_leaves_configured_scope :
    (memStore "stacks").getObject "../etc/passwd" = "etc/passwd" ∧
    (memStore "stacks").getObject "../etc/passwd" ≠ "stacks" ++ "/" ++ "../etc/passwd" ∧
    ("stacks/" : String).data.isPrefixOf ((memStore "stacks").getObject "../etc/passwd").data
      = false := by
  decide

/-- C6, amended: for a configured prefix and a key that are plain paths (every
element between slashes a name, none empty, `.` or `..`), the object path of the key
is the prefix, a single `/` and the key, and it starts with the prefix followed by
`/`. -/
theorem getObject_of_plain_key (i : I σ) (k : String)
    (hp : plainPath i.Config.Prefix = true) (hk : plainPath k = true) :
    i.getObject k = i.Config.Prefix ++ "/" ++ k ∧
    (i.Config.Prefix ++ "/").data <+: (i.getObject k).data := by
  have h := Join_plain i.Config.Prefix k hp hk
  refine ⟨h, ?_⟩
  rw [I.getObject, h, String.data_append]
  exact List.prefix_append _ _

/-- C6, amended, at the prefix `stacks` and the key `a/k1`. -/
theorem getObject_of_plain_key_witness :
    plainPath "stacks" = true ∧ plainPath "a/k1" = true ∧
    (memStore "stacks").getObject "a/k1" = "stacks" ++ "/" ++ "a/k1" :=
  ⟨by decide, by decide,
    (getObject_of_plain_key (memStore "stacks") "a/k1" (by decide) (by decide)).1⟩

/-! ### Listing -/

/-- A name that does not start with a prefix is not a name that does. -/
theorem ne_of_isPrefixOf (pre a b : List Char) (ha : pre.isPrefixOf a = true)
    (hb : pre.isPrefixOf b = false) : b ≠ a := by
  intro h; rw [h, ha] at hb; exact Bool.noConfusion hb

/-- The group of an object whose name is the query prefix followed by `r`. -/
theorem groupOf_of_data (q : Query) (n : String) (r : List Char)
    (h : n.data = q.Prefix.data ++ r) :
    groupOf q n = (upToDelim q.Delimiter.data r).map (fun d => q.Prefix ++ ⟨d⟩) := by
  unfold groupOf
  rw [h, List.drop_left]

/-- The order of names looks behind a common beginning. -/
theorem charsLe_append (l a b : List Char) : charsLe (l ++ a) (l ++ b) = charsLe a b := by
  induction l with
  | nil => rfl
  | cons c cs ih => simp [charsLe, ih]

/-- The listing of a bucket whose objects under the query prefix are two, of two
different groups: one entry per group, in the order of the group paths. -/
theorem listEntries_two_groups (q : Query) (n1 n2 g1 g2 : String) (o1 o2 : Object)
    (rest : List (String × Object))
    (h1 : q.Prefix.data.isPrefixOf n1.data = true)
    (h2 : q.Prefix.data.isPrefixOf n2.data = true)
    (hg1 : groupOf q n1 = some g1) (hg2 : groupOf q n2 = some g2) (hne : g2 ≠ g1)
    (hle : charsLe g2.data g1.data = false)
    (hrest : ∀ e ∈ rest, q.Prefix.data.isPrefixOf e.1.data = false) :
    listEntries q ((n2, o2) :: (n1, o1) :: rest) =
      [{ Name := "", Prefix := g1, Metadata := none, ContentType := "", CacheControl := "" },
       { Name := "", Prefix := g2, Metadata := none, ContentType := "", CacheControl := "" }] := by
  have hfil : rest.filter (fun e => q.Prefix.data.isPrefixOf e.1.data) = [] := by
    rw [List.filter_eq_nil_iff]
    intro e he
    rw [hrest e he]
    exact Bool.false_ne_true
  have hunder : ((n2, o2) :: (n1, o1) :: rest).filter
      (fun e => q.Prefix.data.isPrefixOf e.1.data) = [(n2, o2), (n1, o1)] := by
    simp [List.filter_cons, h1, h2, hfil]
  unfold listEntries
  simp only [hunder]
  simp [List.filterMap_cons, hg1, hg2, List.dedup_cons_of_not_mem, hne, sortBy,
    insertSorted, hle]

/-- C4 at the failing input: on the empty bucket in memory, after objects are written
at the keys `a/x` and `a/y`, the listing under `stacks/a/` delivers two object
entries, with their names and an empty `Prefix`, and `List("a")` returns two keys
that are both the empty string, neither `x` nor `y`. -/
theorem list_of_direct_objects_gives_empty_keys :
    ((memStore "stacks").Add rawCodec "a/x" fooBar none MemState.empty).1 = .returned none ∧
    ((memStore "stacks").Add rawCodec "a/y" nOne none
      ((memStore "stacks").Add rawCodec "a/x" fooBar none MemState.empty).2).1
      = .returned none ∧
    (listEntries { Prefix := "stacks/a/", Delimiter := "/" }
      ((memStore "stacks").Add rawCodec "a/y" nOne none
        ((memStore "stacks").Add rawCodec "a/x" fooBar none MemState.empty).2).2.objects).map
          (fun a => (a.Name, a.Prefix)) = [("stacks/a/x", ""), ("stacks/a/y", "")] ∧
    ((memStore "stacks").List "a"
      ((memStore "stacks").Add rawCodec "a/y" nOne none
        ((memStore "stacks").Add rawCodec "a/x" fooBar none MemState.empty).2).2).1
      = ([{ Key := "", Metadata := none }, { Key := "", Metadata := none }], none) ∧
    ¬ (((memStore "stacks").List "a"
      ((memStore "stacks").Add rawCodec "a/y" nOne none
        ((memStore "stacks").Add rawCodec "a/x" fooBar none MemState.empty).2).2).1.1.map
          Key.Key).Perm ["x", "y"] := by
  refine ⟨by decide, by decide, by decide, by decide, ?_⟩
  intro h
  have hmem := h.mem_iff (a := "x")
  revert hmem
  decide

/-- The listing under `pre/a/` after two objects of the groups `x` and `y` were put
into a bucket with no object under `pre/a/`. -/
theorem list_entries_of_two_writes (pre n1 n2 : String) (o1 o2 : Object)
    (objs : List (String × Object))
    (h1 : n1.data = (pre ++ "/a/").data ++ ['x', '/', 'z'])
    (h2 : n2.data = (pre ++ "/a/").data ++ ['y', '/', 'w'])
    (hne : n2 ≠ n1)
    (hnone : ∀ e ∈ objs, (pre ++ "/a/").data.isPrefixOf e.1.data = false) :
    listEntries { Prefix := pre ++ "/a/", Delimiter := "/" }
      (putObject n2 o2 (putObject n1 o1 objs)) =
      [{ Name := "", Prefix := pre ++ "/a/" ++ "x/", Metadata := none, ContentType := "",
         CacheControl := "" },
       { Name := "", Prefix := pre ++ "/a/" ++ "y/", Metadata := none, ContentType := "",
         CacheControl := "" }] := by
  have hput : putObject n2 o2 (putObject n1 o1 objs) =
      (n2, o2) :: (n1, o1) :: (objs.filter (fun e => e.1 ≠ n1)).filter (fun e => e.1 ≠ n2) := by
    have hne2 : n1 ≠ n2 := fun h => hne h.symm
    simp [putObject, List.filter_cons, hne2]
  rw [hput]
  apply listEntries_two_groups
  · show (pre ++ "/a/").data.isPrefixOf n1.data = true
    rw [ List.isPrefixOf_iff_prefix, h1]; exact List.prefix_append _ _
  · show (pre ++ "/a/").data.isPrefixOf n2.data = true
    rw [ List.isPrefixOf_iff_prefix, h2]; exact List.prefix_append _ _
  · rw [groupOf_of_data _ n1 _ h1]; rfl
  · rw [groupOf_of_data _ n2 _ h2]; rfl
  · intro h
    have := congrArg String.data h
    simp only [String.data_append] at this
    have := List.append_cancel_left this
    revert this
    decide
  · simp only [String.data_append, charsLe_append]
    decide
  · intro e he
    exact hnone e (List.mem_filter.mp (List.mem_filter.mp he).1).1

/-- No object is stored under a name that starts with a prefix no stored name has. -/
theorem lookup_none_under (pre : List Char) (n : String) (objs : List (String × Object))
    (hn : pre.isPrefixOf n.data = true)
    (hobjs : ∀ e ∈ objs, pre.isPrefixOf e.1.data = false) :
    objs.lookup n = none := by
  rw [List.lookup_eq_none_iff]
  intro e he
  have hne : e.1.data ≠ n.data := ne_of_isPrefixOf pre n.data e.1.data hn (hobjs e he)
  have : n ≠ e.1 := fun h => hne (by rw [h])
  simpa using this

/-- Nested keys are listed by their group: on the bucket in memory with a plain
configured prefix and
no object under `a`, after objects are written with nil metadata at the nested keys
`a/x/z` and `a/y/w` (by `Add` or by `ForceAdd`, in either order of time), `List("a")`
returns no error and exactly the keys `x` and `y`, one per group, with the
configured prefix and the queried segment stripped: the object at `a/x/z` is
surfaced as the key `x` and not as `x/z`. -/
theorem list_returns_groups (json : JSONCodec Payload) (pre : String)
    (hpre : plainPath pre = true) (P1 P2 : Payload) (f1 f2 : Bool) (st : MemState)
    (hnone : ∀ e ∈ st.objects, (pre ++ "/a/").data.isPrefixOf e.1.data = false) :
    ((memStore pre).List "a"
      ((memStore pre).add json "a/y/w" P2 none f2
        ((memStore pre).add json "a/x/z" P1 none f1 st).2).2).1
      = ([{ Key := "x", Metadata := none }, { Key := "y", Metadata := none }], none) := by
  have hx : (memStore pre).getObject "a/x/z" = pre ++ "/" ++ "a/x/z" :=
    Join_plain pre "a/x/z" hpre (by decide)
  have hy : (memStore pre).getObject "a/y/w" = pre ++ "/" ++ "a/y/w" :=
    Join_plain pre "a/y/w" hpre (by decide)
  have hq : path.Join [(memStore pre).Config.Prefix, "a"] ++ "/" = pre ++ "/a/" := by
    have := Join_plain pre "a" hpre (by decide)
    show path.Join [pre, "a"] ++ "/" = pre ++ "/a/"
    rw [this]
    apply String.ext
    simp [String.data_append]
  have hxd : (pre ++ "/" ++ "a/x/z" : String).data = (pre ++ "/a/").data ++ ['x', '/', 'z'] := by
    simp [String.data_append]
  have hyd : (pre ++ "/" ++ "a/y/w" : String).data = (pre ++ "/a/").data ++ ['y', '/', 'w'] := by
    simp [String.data_append]
  have hxp : (pre ++ "/a/").data.isPrefixOf (pre ++ "/" ++ "a/x/z" : String).data = true := by
    rw [ List.isPrefixOf_iff_prefix, hxd]
    exact List.prefix_append _ _
  have hyp : (pre ++ "/a/").data.isPrefixOf (pre ++ "/" ++ "a/y/w" : String).data = true := by
    rw [ List.isPrefixOf_iff_prefix, hyd]
    exact List.prefix_append _ _
  have hxy : (pre ++ "/" ++ "a/y/w" : String) ≠ pre ++ "/" ++ "a/x/z" := by
    intro h
    have := congrArg String.data h
    rw [hxd, hyd] at this
    have := List.append_cancel_left this
    revert this
    decide
  -- the first write
  have habs1 : st.find ((memStore pre).getObject "a/x/z") = none := by
    rw [hx]
    exact lookup_none_under _ _ _ hxp hnone
  have hadd1 := mem_add_writes json pre "a/x/z" P1 none f1 st (Or.inr habs1)
  have hobjs1 : ((memStore pre).add json "a/x/z" P1 none f1 st).2.objects
      = putObject (pre ++ "/" ++ "a/x/z")
          (storedObject (match json.Marshal P1 with
            | .error _ => []
            | .ok b => b)) st.objects := by
    rw [hadd1, mem_addWrite, hx]
  -- the second write
  have habs2 : ((memStore pre).add json "a/x/z" P1 none f1 st).2.find
      ((memStore pre).getObject "a/y/w") = none := by
    rw [hy, MemState.find, hobjs1, lookup_putObject_ne _ _ hxy]
    exact lookup_none_under _ _ _ hyp hnone
  have hadd2 := mem_add_writes json pre "a/y/w" P2 none f2 _ (Or.inr habs2)
  have hobjs2 : ((memStore pre).add json "a/y/w" P2 none f2
      ((memStore pre).add json "a/x/z" P1 none f1 st).2).2.objects
      = putObject (pre ++ "/" ++ "a/y/w")
          (storedObject (match json.Marshal P2 with
            | .error _ => []
            | .ok b => b))
          (putObject (pre ++ "/" ++ "a/x/z")
            (storedObject (match json.Marshal P1 with
              | .error _ => []
              | .ok b => b)) st.objects) := by
    rw [hadd2, mem_addWrite, hy, hobjs1]
  -- the listing
  have hObj : ∀ (q : Query) (S : MemState),
      (memStore pre).Bucket.Objects q S = ((listEntries q S.objects).map Except.ok, S) :=
    fun _ _ => rfl
  have hky : (memStore pre).listKey "a"
      { Name := "", Prefix := pre ++ "/a/" ++ "y/", Metadata := none, ContentType := "",
        CacheControl := "" } = { Key := "y", Metadata := none } :=
    listKey_group (memStore pre) "a" "y" (by decide) _
      (by apply String.ext; simp [memStore, String.data_append])
  have hkx : (memStore pre).listKey "a"
      { Name := "", Prefix := pre ++ "/a/" ++ "x/", Metadata := none, ContentType := "",
        CacheControl := "" } = { Key := "x", Metadata := none } :=
    listKey_group (memStore pre) "a" "x" (by decide) _
      (by apply String.ext; simp [memStore, String.data_append])
  unfold I.List
  rw [hObj]
  simp only []
  rw [listLoop_ok, hq, hobjs2,
    list_entries_of_two_writes pre _ _ _ _ st.objects hxd hyd hxy hnone]
  simp [hky, hkx]

/-- Nested keys under the prefix `stacks` on the empty bucket. -/
theorem list_returns_groups_on_empty :
    ((memStore "stacks").List "a"
      ((memStore "stacks").add rawCodec "a/y/w" nOne none false
        ((memStore "stacks").add rawCodec "a/x/z" fooBar none false MemState.empty).2).2).1
      = ([{ Key := "x", Metadata := none }, { Key := "y", Metadata := none }], none) := by
  decide

/-! ### The tests of the repository and the scenario of the specification -/

/-- The test `TestAdd`: `Add` returns no error on an existing object, on a new object
without metadata and on a new object with metadata. -/
theorem TestAdd :
    ((stacksOver bucketMock1).Add rawCodec "key" fooBar none ()).1 = .returned none ∧
    ((stacksOver bucketMock2).Add rawCodec "key" fooBar none ()).1 = .returned none ∧
    ((stacksOver bucketMock2).Add rawCodec "key" fooBar (some (some [("foo", "bar")])) ()).1
      = .returned none := by
  decide

/-- The test `TestForceAdd`. -/
theorem TestForceAdd :
    ((stacksOver bucketMock1).ForceAdd rawCodec "key" fooBar none ()).1
      = .returned none := by
  decide

/-- The test `TestGet`: on an existing object `Get` returns what the decoder makes of
the body of the mock; on a new object it returns the error the test expects. -/
theorem TestGet [Inhabited Payload] (json : JSONCodec Payload) :
    ((stacksOver bucketMock1).Get json "key" ()).1 = json.Decode mockJSON ∧
    (((stacksOver bucketMock2).Get json "key" ()).1.2.map GoError.Error)
      = some "code=404, message=Object Does Not Exists" := by
  constructor
  · rfl
  · have h : ((stacksOver bucketMock2).Get json "key" ()).1.2
        = some ObjectDoesNotExistsError := by
      have hex : (stacksOver bucketMock2).Exists "key" ()
          = (some ObjectDoesNotExistsError, ()) := by decide
      simp [I.Get, hex]
    rw [h]
    decide

/-- The test `TestList`. -/
theorem TestList :
    ((stacksOver bucketMock1).List "prefix" ()).1
      = ([{ Key := "key", Metadata := none }, { Key := "key", Metadata := none }], none) := by
  decide

/-- The test `TestDelete`. -/
theorem TestDelete :
    ((stacksOver bucketMock1).Delete "key" ()).1 = none ∧
    (((stacksOver bucketMock2).Delete "key" ()).1.map GoError.Error)
      = some "code=404, message=Object Does Not Exists" := by
  decide

/-- The scenario of the specification on the empty bucket with the key prefix
`stacks`: `Add` of `k1` stores the object `stacks/k1` with the body written, `Get`
returns it, and after `Delete` a `Get` gives the not-found error. -/
theorem scenario_stacks_k1 :
    ((memStore "stacks").Add rawCodec "k1" fooBar none MemState.empty).2.find "stacks/k1"
      = some (storedObject fooBar) ∧
    ((memStore "stacks").Get rawCodec "k1"
      ((memStore "stacks").Add rawCodec "k1" fooBar none MemState.empty).2).1
      = (fooBar, none) ∧
    ((memStore "stacks").Delete "k1"
      ((memStore "stacks").Add rawCodec "k1" fooBar none MemState.empty).2)
      = (none, MemState.empty) ∧
    ((memStore "stacks").Get rawCodec "k1" MemState.empty).1
      = (default, some ObjectDoesNotExistsError) := by
  decide

end Claims

end BlobKV







